import Mathlib

/-!
Verification development for the usage-accounting and metadata-consistency
layer of a distributed object-storage satellite.

The Go sources are shallowly embedded: pure functions become Lean functions,
SQL statements acting on tables become functions on lists of row structures,
machine integers become `Int`/`Nat`, time instants become rationals measured
in hours, and fallible operations return explicit error values.
-/

namespace Storj

/-! ## Segment piece updates (metainfo/metabase/update.go) -/

/-- A single remote piece: a (piece number, storage node) pair. -/
structure Piece where
  number : Nat
  storageNode : Nat
deriving DecidableEq

/-- Modelled from the spec: the `Pieces` comparison used both by the SQL
conditional (`WHEN remote_pieces = $3`) and by the Go post-check
(`opts.NewPieces.Equal(pieces)`) is not part of the provided sources; the spec
describes it as "exact set equality, order-independent", i.e. multiset
(permutation) equality of the two piece lists. -/
def piecesEqual (a b : List Piece) : Bool := a.isPerm b

/-- One row of the `segments` table, restricted to the columns
`UpdateSegmentPieces` touches. -/
structure Segment where
  streamID : Nat
  position : Nat
  pieces : List Piece
deriving DecidableEq

/-- The error outcomes of `UpdateSegmentPieces`:
`ErrInvalidRequest`, `storj.ErrObjectNotFound`, `storage.ErrValueChanged`. -/
inductive UpdateError where
  | invalidRequest
  | notFound
  | valueChanged
deriving DecidableEq

/-- Result of a call: the table after the statement ran, plus the error, if
any, the Go function returned. -/
structure UpdateOutcome where
  db : List Segment
  err : Option UpdateError
deriving DecidableEq

/-- The `WHERE stream_id = $1 AND position = $2` predicate. -/
def segKey (sid pos : Nat) (s : Segment) : Bool :=
  s.streamID == sid && s.position == pos

/-- The `remote_pieces = CASE WHEN remote_pieces = $3 THEN $4 ELSE
remote_pieces END` assignment applied to one matching row. -/
def applyCas (old new_ : List Piece) (s : Segment) : Segment :=
  if piecesEqual s.pieces old then { s with pieces := new_ } else s

/-- The whole `UPDATE segments SET ... WHERE ...` statement: every row
matching the key gets the conditional assignment, all other rows are kept. -/
def runUpdate (db : List Segment) (sid pos : Nat) (old new_ : List Piece) :
    List Segment :=
  db.map fun s => if segKey sid pos s then applyCas old new_ s else s

/-- The tail of `UpdateSegmentPieces` after the query ran: `sql.ErrNoRows`
becomes NotFound, and a returned row whose pieces are not the requested new
pieces becomes ValueChanged. -/
def finishUpdate (db' : List Segment) (new_ : List Piece) :
    Option Segment → UpdateOutcome
  | none => ⟨db', some .notFound⟩
  | some row =>
    if piecesEqual new_ row.pieces then ⟨db', none⟩
    else ⟨db', some .valueChanged⟩

/-- Embeds `DB.UpdateSegmentPieces` (update.go lines 27-62): validate the
arguments, run the conditional update returning the (post-update) row, map an
empty result to NotFound, and flag ValueChanged when the returned pieces are
not the requested new pieces. -/
def updateSegmentPieces (db : List Segment) (sid pos : Nat)
    (old new_ : List Piece) : UpdateOutcome :=
  if sid = 0 then ⟨db, some .invalidRequest⟩
  else if new_ = [] then ⟨db, some .invalidRequest⟩
  else
    let db' := runUpdate db sid pos old new_
    finishUpdate db' new_ (db'.find? (segKey sid pos))

/-- Example pieces used by concrete witnesses below. -/
def pA : Piece := ⟨1, 10⟩

def pB : Piece := ⟨2, 20⟩

def pC : Piece := ⟨3, 30⟩

/-! ## Byte strings and prefixIncrement (satellitedb/projectaccounting.go) -/

/-- The backward scan of `prefixIncrement`, expressed on the reversed byte
string: drop trailing `0xff` bytes, then increment the first byte that is not
`0xff`; `none` when every byte is `0xff` (or the string is empty). -/
def prefixIncrementRev : List Nat → Option (List Nat)
  | [] => none
  | b :: rest =>
    if b = 255 then prefixIncrementRev rest
    else some (((b + 1) :: rest).reverse)

/-- Embeds `prefixIncrement` (projectaccounting.go lines 487-502): the
lexicographically lowest byte string greater than `origPrefix` that does not
have `origPrefix` as a prefix, or `none` when no such string exists. -/
def prefixIncrement (origPrefix : List Nat) : Option (List Nat) :=
  prefixIncrementRev origPrefix.reverse

/-- Lexicographic strict order on byte strings, as `bytes.Compare` and the SQL
`bytea` comparison order them: a proper leading substring is smaller. -/
def bytesLt : List Nat → List Nat → Bool
  | [], [] => false
  | [], _ :: _ => true
  | _ :: _, [] => false
  | a :: as, b :: bs => if a < b then true else if b < a then false else bytesLt as bs

/-- Lexicographic `≤` on byte strings. -/
def bytesLe (a b : List Nat) : Bool := !(bytesLt b a)

/-! ## Storage tallies, bandwidth rollups and GetProjectTotal
(satellitedb/projectaccounting.go)

Time instants are rationals measured in hours, so `time.Sub(...).Hours()`
becomes plain subtraction and truncating to the hour becomes the floor. -/

/-- One row of the `bucket_storage_tallies` table. -/
structure TallyRow where
  projectID : Nat
  bucketName : List Nat
  intervalStart : ℚ
  totalBytes : Int
  inline : Int
  remote : Int
  totalSegments : Int
  inlineSegments : Int
  remoteSegments : Int
  objectCount : Int
  metadataSize : Int
deriving DecidableEq

/-- One row of the `bucket_bandwidth_rollups` table (and of its archive). -/
structure RollupRow where
  projectID : Nat
  bucketName : List Nat
  intervalStart : ℚ
  intervalSeconds : Int
  action : Nat
  inline : Int
  allocated : Int
  settled : Int
deriving DecidableEq

/-- Modelled from the spec: the piece-action enumeration (`pb.PieceAction`) is
an external closed set of named integer codes (GET, GET_AUDIT, GET_REPAIR,
PUT, ...); the concrete numbers are opaque to this layer. -/
def actionGet : Nat := 2

def actionGetAudit : Nat := 3

def actionGetRepair : Nat := 4

/-- Embeds `timeTruncateDown` (lines 772-775): truncate down to the hour. -/
def timeTruncateDown (t : ℚ) : ℚ := ⌊t⌋

/-- The row filter of the per-bucket storage query and of
`getBucketsSinceAndBefore`: project match and `interval_start` between
`since` and `before`, both bounds inclusive in the SQL. -/
def tallyInWindow (p : Nat) (since before : ℚ) (r : TallyRow) : Bool :=
  r.projectID == p && decide (since ≤ r.intervalStart) &&
    decide (r.intervalStart ≤ before)

/-- Embeds `getBucketsSinceAndBefore` (lines 745-770): `SELECT DISTINCT
bucket_name` over the window. -/
def getBucketsSinceAndBefore (tallies : List TallyRow) (p : Nat)
    (since before : ℚ) : List (List Nat) :=
  ((tallies.filter (tallyInWindow p since before)).map (·.bucketName)).dedup

/-- Insert into a list kept sorted by `interval_start` descending (the
`ORDER BY interval_start DESC` of the storage queries). -/
def insertByStartDesc (r : TallyRow) : List TallyRow → List TallyRow
  | [] => [r]
  | h :: t =>
    if h.intervalStart < r.intervalStart then r :: h :: t
    else h :: insertByStartDesc r t

def sortByStartDesc (l : List TallyRow) : List TallyRow :=
  l.foldr insertByStartDesc []

/-- The rows the per-bucket storage query of `GetProjectTotal` returns, in
descending interval order. -/
def tallyRowsFor (tallies : List TallyRow) (p : Nat) (bucket : List Nat)
    (since before : ℚ) : List TallyRow :=
  sortByStartDesc (tallies.filter fun r =>
    tallyInWindow p since before r && r.bucketName == bucket)

/-- What `GetProjectTotal` reads out of one storage-tally row (lines 303-316):
interval start, total bytes with the legacy `== 0` inline+remote fallback, and
the object count. -/
structure ScannedTally where
  intervalStart : ℚ
  totalBytes : Int
  objectCount : Int
deriving DecidableEq

def scanTallyRow (r : TallyRow) : ScannedTally :=
  { intervalStart := r.intervalStart
    totalBytes := if r.totalBytes = 0 then r.inline + r.remote else r.totalBytes
    objectCount := r.objectCount }

/-- The interval-weighting loop of `GetProjectTotal` (lines 335-342) for
storage: walk the descending list, weighting every tally except the newest by
the hour gap to the next-newer tally. -/
def weightStorage : List ScannedTally → ℚ
  | a :: b :: rest =>
    (b.totalBytes : ℚ) * (a.intervalStart - b.intervalStart) +
      weightStorage (b :: rest)
  | _ => 0

/-- The same loop's object-count accumulation. -/
def weightObjects : List ScannedTally → ℚ
  | a :: b :: rest =>
    (b.objectCount : ℚ) * (a.intervalStart - b.intervalStart) +
      weightObjects (b :: rest)
  | _ => 0

/-- Embeds `getTotalEgress` (lines 352-370): `SUM(settled) + SUM(inline)`
over GET-action rollups in the window, bounds inclusive. -/
def getTotalEgress (rollups : List RollupRow) (p : Nat) (since before : ℚ) :
    Int :=
  ((rollups.filter fun r =>
      r.projectID == p && decide (since ≤ r.intervalStart) &&
        decide (r.intervalStart ≤ before) && r.action == actionGet).map
    fun r => r.settled + r.inline).sum

/-- The result of `GetProjectTotal`. -/
structure ProjectUsage where
  storage : ℚ
  objectCount : ℚ
  egress : Int
  since : ℚ
  before : ℚ
deriving DecidableEq

/-- Embeds `GetProjectTotal` (lines 267-347): truncate `since` down to the
hour, enumerate buckets in the window, interval-weight each bucket's tallies,
and add total GET egress. -/
def getProjectTotal (tallies : List TallyRow) (rollups : List RollupRow)
    (p : Nat) (since before : ℚ) : ProjectUsage :=
  let since' := timeTruncateDown since
  let buckets := getBucketsSinceAndBefore tallies p since' before
  { storage := (buckets.map fun b =>
      weightStorage ((tallyRowsFor tallies p b since' before).map scanTallyRow)).sum
    objectCount := (buckets.map fun b =>
      weightObjects ((tallyRowsFor tallies p b since' before).map scanTallyRow)).sum
    egress := getTotalEgress rollups p since' before
    since := since'
    before := before }

/-- `memory.Size(x).GB()`: bytes as (fractional) gigabytes. -/
def gb (x : Int) : ℚ := (x : ℚ) / 1000000000

/-- The stored-data accumulation of the `GetBucketUsageRollups` loop (lines
446-463): note the legacy fallback there triggers on `TotalBytes > 0` being
false, not on `TotalBytes == 0`. -/
def rollupStoredData : List TallyRow → ℚ
  | a :: b :: rest =>
    (if 0 < b.totalBytes then gb b.totalBytes else gb (b.remote + b.inline)) *
        (a.intervalStart - b.intervalStart) +
      rollupStoredData (b :: rest)
  | _ => 0

/-- The segment-count accumulation of the same loop, with its
`TotalSegmentsCount > 0` test. -/
def rollupTotalSegments : List TallyRow → ℚ
  | a :: b :: rest =>
    (if 0 < b.totalSegments then (b.totalSegments : ℚ)
      else ((b.remoteSegments + b.inlineSegments : Int) : ℚ)) *
        (a.intervalStart - b.intervalStart) +
      rollupTotalSegments (b :: rest)
  | _ => 0

/-- What `GetTallies` (lines 76-113) produces for one row: the legacy
`== 0` fallbacks for total bytes and total segments. -/
structure BucketTally where
  projectID : Nat
  bucketName : List Nat
  objectCount : Int
  totalSegments : Int
  totalBytes : Int
  metadataSize : Int
deriving DecidableEq

def getTalliesRow (r : TallyRow) : BucketTally :=
  { projectID := r.projectID
    bucketName := r.bucketName
    objectCount := r.objectCount
    totalSegments :=
      if r.totalSegments = 0 then r.inlineSegments + r.remoteSegments
      else r.totalSegments
    totalBytes := if r.totalBytes = 0 then r.inline + r.remote else r.totalBytes
    metadataSize := r.metadataSize }

def getTallies (rows : List TallyRow) : List BucketTally :=
  rows.map getTalliesRow

/-! ## GetBucketTotals (satellitedb/projectaccounting.go lines 533-675) -/

/-- One row of the `bucket_metainfos` table (the columns used here). -/
structure BucketMetainfo where
  projectID : Nat
  name : List Nat
deriving DecidableEq

/-- The paging cursor (`accounting.BucketUsageCursor`): search bytes, limit
and 1-indexed page, both unsigned. -/
structure BucketUsageCursor where
  search : List Nat
  limit : Nat
  page : Nat
deriving DecidableEq

/-- The range predicate `prefixMatch` produces (lines 504-531): `name >=
search`, and `name < prefixIncrement search` when the increment exists. Both
dialect variants express this same range. -/
def nameInRange (search name : List Nat) : Bool :=
  match prefixIncrement search with
  | some ub => bytesLe search name && bytesLt name ub
  | none => bytesLe search name

/-- The `COUNT(name)` of buckets matching the project and search range. -/
def matchingBucketCount (metainfos : List BucketMetainfo) (p : Nat)
    (search : List Nat) : Nat :=
  (metainfos.filter fun b => b.projectID == p && nameInRange search b.name).length

/-- Insertion into a byte-string list sorted ascending (`ORDER BY name ASC`). -/
def insertNameAsc (n : List Nat) : List (List Nat) → List (List Nat)
  | [] => [n]
  | h :: t => if bytesLt n h then n :: h :: t else h :: insertNameAsc n t

def sortNamesAsc (l : List (List Nat)) : List (List Nat) :=
  l.foldr insertNameAsc []

/-- Per-bucket egress of `GetBucketTotals`: `SUM(settled) + SUM(inline)` of
GET rollups of that bucket in the window. -/
def bucketEgress (rollups : List RollupRow) (p : Nat) (name : List Nat)
    (since before : ℚ) : Int :=
  ((rollups.filter fun r =>
      r.projectID == p && r.bucketName == name &&
        decide (since ≤ r.intervalStart) && decide (r.intervalStart ≤ before) &&
        r.action == actionGet).map fun r => r.settled + r.inline).sum

/-- Per-bucket storage of `GetBucketTotals` (lines 645-662): only the single
most recent tally in range (`ORDER BY interval_start DESC LIMIT 1`); a missing
row leaves the zero value, and the legacy `== 0` fallback applies to the
scanned bytes. Returns (effective total bytes, object count). -/
def bucketTotalsTally (tallies : List TallyRow) (p : Nat) (name : List Nat)
    (since before : ℚ) : Int × Int :=
  match (sortByStartDesc (tallies.filter fun r =>
      tallyInWindow p since before r && r.bucketName == name)).head? with
  | none => (0, 0)
  | some r =>
    (if r.totalBytes = 0 then r.inline + r.remote else r.totalBytes,
      r.objectCount)

/-- One entry of the result page. -/
structure BucketUsage where
  projectID : Nat
  bucketName : List Nat
  egress : ℚ
  storage : ℚ
  objectCount : Int
  since : ℚ
  before : ℚ
deriving DecidableEq

/-- The result page (`accounting.BucketUsagePage`). -/
structure BucketUsagePage where
  search : List Nat
  limit : Nat
  offset : Nat
  pageCount : Nat
  currentPage : Nat
  totalCount : Nat
  bucketUsages : List BucketUsage
deriving DecidableEq

/-- How `GetBucketTotals` can fail: the explicit "page can not be 0" and
"page is out of range" errors, and the unguarded `TotalCount / uint64(0)` at
line 667, which in Go is a runtime panic. -/
inductive PageError where
  | pageZero
  | outOfRange
  | divByZero
deriving DecidableEq

deriving instance DecidableEq for Except

/-- Ceiling division, the value `page.PageCount` carries for a positive
divisor (lines 667-670). -/
def ceilDiv (a b : Nat) : Nat := a / b + if a % b = 0 then 0 else 1

/-- Embeds `GetBucketTotals` (lines 533-675): cap the limit at 50, reject
page 0, count matching buckets, return the early empty page when none match,
reject an offset past the last bucket, list the page's buckets, fill their
cheap (most-recent-tally) usage figures, and compute the page count — which
divides by zero when the capped limit is 0. -/
def getBucketTotals (metainfos : List BucketMetainfo) (tallies : List TallyRow)
    (rollups : List RollupRow) (p : Nat) (cursor : BucketUsageCursor)
    (since before : ℚ) : Except PageError BucketUsagePage :=
  let since' := timeTruncateDown since
  let limit := if cursor.limit > 50 then 50 else cursor.limit
  if cursor.page = 0 then .error .pageZero
  else
    let offset := (cursor.page - 1) * limit
    let total := matchingBucketCount metainfos p cursor.search
    if total = 0 then
      .ok { search := cursor.search, limit := limit, offset := offset,
            pageCount := 0, currentPage := 0, totalCount := 0,
            bucketUsages := [] }
    else if offset > total - 1 then .error .outOfRange
    else
      let names := ((sortNamesAsc ((metainfos.filter fun b =>
        b.projectID == p && nameInRange cursor.search b.name).map
          (·.name))).drop offset).take limit
      let usages := names.map fun n =>
        { projectID := p
          bucketName := n
          egress := gb (bucketEgress rollups p n since' before)
          storage := gb (bucketTotalsTally tallies p n since' before).1
          objectCount := (bucketTotalsTally tallies p n since' before).2
          since := since'
          before := before : BucketUsage }
      if limit = 0 then .error .divByZero
      else
        .ok { search := cursor.search, limit := limit, offset := offset,
              pageCount := ceilDiv total limit, currentPage := cursor.page,
              totalCount := total, bucketUsages := usages }

/-! ## ArchiveRollupsBefore (satellitedb/projectaccounting.go lines 677-742) -/

/-- The two backend families the code branches on. -/
inductive Dialect where
  | postgres
  | cockroach
deriving DecidableEq

/-- The live rollup table and its archive. -/
structure ArchState where
  live : List RollupRow
  archive : List RollupRow
deriving DecidableEq

/-- The row filter of the per-action batched move:
`action = $1 AND interval_start <= $2`. -/
def archMatch (action : Nat) (before : ℚ) (r : RollupRow) : Bool :=
  r.action == action && decide (r.intervalStart ≤ before)

/-- `DELETE ... LIMIT n RETURNING *`: remove (at most) the first `n` rows
satisfying `p`, returning them and the remaining table in order. -/
def takeMatching (p : RollupRow → Bool) :
    Nat → List RollupRow → List RollupRow × List RollupRow
  | _, [] => ([], [])
  | 0, l => ([], l)
  | n + 1, r :: rest =>
    if p r then
      (r :: (takeMatching p n rest).1, (takeMatching p n rest).2)
    else
      ((takeMatching p (n + 1) rest).1, r :: (takeMatching p (n + 1) rest).2)

/-- Result of one per-action archive loop: rows moved, rounds (queries) run,
whether a query failed, the resulting tables, and the remaining failure
budget. -/
structure ActionResult where
  count : Nat
  rounds : Nat
  failed : Bool
  state : ArchState
  budget : Option Nat
deriving DecidableEq

/-- Embeds `archiveRollupsBeforeByAction` (lines 716-742). Each iteration
moves up to `batchSize` matching rows from the live table into the archive and
stops when a round moved fewer than `batchSize` rows. Failures of the
underlying query are modelled by a budget: `some k` makes the `(k+1)`-th query
fail, `none` never fails; on failure the loop returns the count accumulated so
far. The fuel argument bounds the recursion; callers pass more fuel than the
loop can consume, and running out of fuel reports a failure (the Go loop would
not terminate only when `batchSize <= 0`, which its caller excludes). -/
def archiveByAction (action : Nat) (before : ℚ) (batchSize : Int) :
    Nat → Option Nat → ArchState → ActionResult
  | 0, budget, st => ⟨0, 0, true, st, budget⟩
  | fuel + 1, budget, st =>
    if budget = some 0 then ⟨0, 0, true, st, budget⟩
    else
      let budget' := budget.map (· - 1)
      let mv := takeMatching (archMatch action before) batchSize.toNat st.live
      let st' : ArchState := ⟨mv.2, st.archive ++ mv.1⟩
      if (mv.1.length : Int) < batchSize then ⟨mv.1.length, 1, false, st', budget'⟩
      else
        let r := archiveByAction action before batchSize fuel budget' st'
        ⟨mv.1.length + r.count, r.rounds + 1, r.failed, r.state, r.budget⟩

/-- Modelled from the spec: the `pb.PieceAction` enumeration iterated by the
Cockroach branch (`for action := range pb.PieceAction_name`) is an external
closed set of integer codes; the map's iteration order is not fixed, the model
uses ascending code order. -/
def pieceActionCodes : List Nat := [0, 1, 2, 3, 4, 5, 6, 7]

/-- Result of `ArchiveRollupsBefore`: archived count, whether an error was
returned, and the resulting tables. -/
structure ArchiveResult where
  count : Nat
  failed : Bool
  state : ArchState
deriving DecidableEq

/-- The Cockroach branch (lines 685-696): run the per-action loop for every
action code, accumulating counts; on a failure return the rows archived so
far together with the error. -/
def archiveActionsLoop (before : ℚ) (batchSize : Int) :
    List Nat → Option Nat → ArchState → ArchiveResult
  | [], _, st => ⟨0, false, st⟩
  | a :: rest, budget, st =>
    let r := archiveByAction a before batchSize (st.live.length + 1) budget st
    if r.failed then ⟨r.count, true, r.state⟩
    else
      let rr := archiveActionsLoop before batchSize rest r.budget r.state
      ⟨r.count + rr.count, rr.failed, rr.state⟩

/-- Embeds `ArchiveRollupsBefore` (lines 677-714): no-op for
`batchSize <= 0`; per-action batched moves on Cockroach; a single atomic
delete-and-insert of every expired row on Postgres. -/
def archiveRollupsBefore (impl : Dialect) (budget : Option Nat)
    (st : ArchState) (before : ℚ) (batchSize : Int) : ArchiveResult :=
  if batchSize ≤ 0 then ⟨0, false, st⟩
  else
    match impl with
    | .cockroach => archiveActionsLoop before batchSize pieceActionCodes budget st
    | .postgres =>
      if budget = some 0 then ⟨0, true, st⟩
      else
        let moved := st.live.filter fun r => decide (r.intervalStart ≤ before)
        ⟨moved.length, false,
          ⟨st.live.filter fun r => !decide (r.intervalStart ≤ before),
            st.archive ++ moved⟩⟩

/-! ## Theorems -/

theorem segKey_applyCas (sid pos : Nat) (old new_ : List Piece) (s : Segment) :
    segKey sid pos (applyCas old new_ s) = segKey sid pos s := by
  unfold applyCas
  split <;> rfl

theorem find?_runUpdate (db : List Segment) (sid pos : Nat)
    (old new_ : List Piece) :
    (runUpdate db sid pos old new_).find? (segKey sid pos) =
      (db.find? (segKey sid pos)).map (applyCas old new_) := by
  induction db with
  | nil => rfl
  | cons s rest ih =>
    by_cases h : segKey sid pos s
    · rw [runUpdate, List.map_cons, if_pos h,
        List.find?_cons_of_pos _ (by rw [segKey_applyCas]; exact h),
        List.find?_cons_of_pos _ h, Option.map_some']
    · rw [runUpdate, List.map_cons, if_neg h,
        List.find?_cons_of_neg _ h, List.find?_cons_of_neg _ h]
      exact ih

theorem map_id_of_mem {α : Type} (l : List α) (f : α → α)
    (h : ∀ a ∈ l, f a = a) : l.map f = l := by
  induction l with
  | nil => rfl
  | cons a rest ih =>
    rw [List.map_cons, h a (List.mem_cons_self a rest),
      ih fun b hb => h b (List.mem_cons_of_mem a hb)]

theorem piecesEqual_of_perm {a b : List Piece} (h : a.Perm b) :
    piecesEqual a b = true :=
  List.isPerm_iff.mpr h

theorem piecesEqual_eq_false {a b : List Piece} (h : ¬ a.Perm b) :
    piecesEqual a b = false := by
  unfold piecesEqual
  cases hab : a.isPerm b with
  | false => rfl
  | true => exact absurd (List.isPerm_iff.mp hab) h

/-- Claim C1 — on an existing segment with valid arguments, the stored piece
list is replaced by `newPieces` (and the call succeeds) exactly when the
stored list is a permutation of `oldPieces`; when it is not, the stored row is
returned unchanged. -/
theorem updateSegmentPieces_replaces_iff_old_matches
    (db : List Segment) (sid pos : Nat) (old new_ : List Piece)
    (seg : Segment) (hs : sid ≠ 0) (hn : new_ ≠ [])
    (hfind : db.find? (segKey sid pos) = some seg) :
    (seg.pieces.Perm old →
      (updateSegmentPieces db sid pos old new_).err = none ∧
      (updateSegmentPieces db sid pos old new_).db.find? (segKey sid pos) =
        some { seg with pieces := new_ }) ∧
    (¬ seg.pieces.Perm old →
      (updateSegmentPieces db sid pos old new_).db.find? (segKey sid pos) =
        some seg) := by
  have hmain : updateSegmentPieces db sid pos old new_ =
      finishUpdate (runUpdate db sid pos old new_) new_
        ((runUpdate db sid pos old new_).find? (segKey sid pos)) := by
    unfold updateSegmentPieces
    rw [if_neg hs, if_neg hn]
  have hfind' : (runUpdate db sid pos old new_).find? (segKey sid pos) =
      some (applyCas old new_ seg) := by
    rw [find?_runUpdate, hfind, Option.map_some']
  constructor
  · intro hperm
    have hcas : applyCas old new_ seg = { seg with pieces := new_ } := by
      unfold applyCas
      rw [if_pos (piecesEqual_of_perm hperm)]
    rw [hmain, hfind', hcas, finishUpdate]
    rw [if_pos (piecesEqual_of_perm (List.Perm.refl new_))]
    exact ⟨rfl, by rw [hfind', hcas]⟩
  · intro hperm
    have hcas : applyCas old new_ seg = seg := by
      unfold applyCas
      rw [piecesEqual_eq_false hperm]
      simp
    rw [hmain, hfind', hcas, finishUpdate]
    by_cases hnp : piecesEqual new_ seg.pieces = true
    · rw [if_pos hnp]
      rw [hfind', hcas]
    · rw [if_neg hnp]
      rw [hfind', hcas]

/-- Witness for C1: replacing `[pA, pB]` presenting the permuted old value
`[pB, pA]` succeeds and stores `[pC]`. -/
theorem updateSegmentPieces_replaces_iff_old_matches_witness :
    (updateSegmentPieces [⟨1, 0, [pA, pB]⟩] 1 0 [pB, pA] [pC]).err = none ∧
    (updateSegmentPieces [⟨1, 0, [pA, pB]⟩] 1 0 [pB, pA] [pC]).db.find?
      (segKey 1 0) = some ⟨1, 0, [pC]⟩ := by
  have h := updateSegmentPieces_replaces_iff_old_matches
    [⟨1, 0, [pA, pB]⟩] 1 0 [pB, pA] [pC] ⟨1, 0, [pA, pB]⟩
    (by decide) (by decide) (by decide)
  exact h.1 (List.isPerm_iff.mp (by decide))

/-- Claim C2 (counterexample) — the claim asserts that whenever the segment
exists and its stored piece set differs from `oldPieces`, the call fails with
ValueChanged. On a segment storing `[pA, pB]`, presenting `oldPieces = [pC]`
(different from the stored set) and `newPieces = [pA, pB]` returns success,
not a conflict. -/
theorem updateSegmentPieces_conflict_counterexample :
    piecesEqual [pA, pB] [pC] = false ∧
    (updateSegmentPieces [⟨1, 0, [pA, pB]⟩] 1 0 [pC] [pA, pB]).err = none := by
  decide

/-- Claim C2 (amended) — `InvalidRequest` is returned iff the stream id is
zero or `newPieces` is empty; with valid arguments, an absent segment yields
NotFound; and an existing segment whose stored pieces match neither
`oldPieces` nor `newPieces` yields ValueChanged, leaving the table unchanged
(the key is unique — it is the table's primary key); ValueChanged and
NotFound are distinct errors. -/
theorem updateSegmentPieces_error_taxonomy
    (db : List Segment) (sid pos : Nat) (old new_ : List Piece) :
    ((updateSegmentPieces db sid pos old new_).err = some .invalidRequest ↔
      sid = 0 ∨ new_ = []) ∧
    (sid ≠ 0 → new_ ≠ [] → db.find? (segKey sid pos) = none →
      (updateSegmentPieces db sid pos old new_).err = some .notFound) ∧
    (∀ seg, sid ≠ 0 → new_ ≠ [] →
      db.find? (segKey sid pos) = some seg →
      (∀ s ∈ db, segKey sid pos s = true → s = seg) →
      ¬ seg.pieces.Perm old → ¬ new_.Perm seg.pieces →
      (updateSegmentPieces db sid pos old new_).err = some .valueChanged ∧
      (updateSegmentPieces db sid pos old new_).db = db) ∧
    UpdateError.valueChanged ≠ UpdateError.notFound := by
  refine ⟨?_, ?_, ?_, by decide⟩
  · constructor
    · intro herr
      by_contra hcon
      push_neg at hcon
      obtain ⟨hs, hn⟩ := hcon
      have hmain : updateSegmentPieces db sid pos old new_ =
          finishUpdate (runUpdate db sid pos old new_) new_
            ((runUpdate db sid pos old new_).find? (segKey sid pos)) := by
        unfold updateSegmentPieces
        rw [if_neg hs, if_neg hn]
      rw [hmain] at herr
      cases hf : (runUpdate db sid pos old new_).find? (segKey sid pos) with
      | none =>
        rw [hf, finishUpdate] at herr
        exact absurd herr (by simp)
      | some row =>
        rw [hf, finishUpdate] at herr
        by_cases hnp : piecesEqual new_ row.pieces = true
        · rw [if_pos hnp] at herr
          exact absurd herr (by simp)
        · rw [if_neg hnp] at herr
          exact absurd herr (by simp)
    · intro h
      unfold updateSegmentPieces
      rcases h with h0 | hnil
      · rw [if_pos h0]
      · by_cases h0 : sid = 0
        · rw [if_pos h0]
        · rw [if_neg h0, if_pos hnil]
  · intro hs hn hnone
    have hmain : updateSegmentPieces db sid pos old new_ =
        finishUpdate (runUpdate db sid pos old new_) new_
          ((runUpdate db sid pos old new_).find? (segKey sid pos)) := by
      unfold updateSegmentPieces
      rw [if_neg hs, if_neg hn]
    rw [hmain, find?_runUpdate, hnone, Option.map_none', finishUpdate]
  · intro seg hs hn hfind huniq hold hnew
    have hmain : updateSegmentPieces db sid pos old new_ =
        finishUpdate (runUpdate db sid pos old new_) new_
          ((runUpdate db sid pos old new_).find? (segKey sid pos)) := by
      unfold updateSegmentPieces
      rw [if_neg hs, if_neg hn]
    have hcas : applyCas old new_ seg = seg := by
      unfold applyCas
      rw [piecesEqual_eq_false hold]
      simp
    have hfind' : (runUpdate db sid pos old new_).find? (segKey sid pos) =
        some seg := by
      rw [find?_runUpdate, hfind, Option.map_some', hcas]
    have hdb : runUpdate db sid pos old new_ = db := by
      refine map_id_of_mem db _ fun s hmem => ?_
      by_cases hk : segKey sid pos s = true
      · rw [if_pos hk, huniq s hmem hk, hcas]
      · rw [if_neg hk]
    rw [hmain, hfind', finishUpdate, if_neg (by rw [piecesEqual_eq_false hnew]; simp)]
    exact ⟨rfl, hdb⟩

/-- Witness for C2 (amended): on a segment storing `[pA]`, presenting
`oldPieces = [pB]` and `newPieces = [pC]` yields ValueChanged and leaves the
table unchanged; also the InvalidRequest iff and the NotFound case at the same
concrete arguments. -/
theorem updateSegmentPieces_error_taxonomy_witness :
    ((updateSegmentPieces [⟨1, 0, [pA]⟩] 1 0 [pB] [pC]).err =
        some .invalidRequest ↔ (1 : Nat) = 0 ∨ ([pC] : List Piece) = []) ∧
    (updateSegmentPieces [⟨1, 0, [pA]⟩] 2 0 [pB] [pC]).err = some .notFound ∧
    (updateSegmentPieces [⟨1, 0, [pA]⟩] 1 0 [pB] [pC]).err =
      some .valueChanged ∧
    (updateSegmentPieces [⟨1, 0, [pA]⟩] 1 0 [pB] [pC]).db = [⟨1, 0, [pA]⟩] := by
  refine ⟨(updateSegmentPieces_error_taxonomy [⟨1, 0, [pA]⟩] 1 0 [pB] [pC]).1,
    (updateSegmentPieces_error_taxonomy [⟨1, 0, [pA]⟩] 2 0 [pB] [pC]).2.1
      (by decide) (by decide) (by decide), ?_⟩
  exact (updateSegmentPieces_error_taxonomy [⟨1, 0, [pA]⟩] 1 0 [pB] [pC]).2.2.1
    ⟨1, 0, [pA]⟩ (by decide) (by decide) (by decide) (by decide)
    (fun hp => absurd (List.isPerm_iff.mpr hp) (by decide))
    (fun hp => absurd (List.isPerm_iff.mpr hp) (by decide))

/-- Claim C9 — with valid arguments on an existing segment whose stored piece
set already equals `newPieces` (as a set), the call succeeds regardless of
`oldPieces`: the conflict check compares the returned pieces against
`newPieces`, not against the `oldPieces` precondition. -/
theorem updateSegmentPieces_retry_succeeds
    (db : List Segment) (sid pos : Nat) (old new_ : List Piece)
    (seg : Segment) (hs : sid ≠ 0) (hn : new_ ≠ [])
    (hfind : db.find? (segKey sid pos) = some seg)
    (hnew : new_.Perm seg.pieces) :
    (updateSegmentPieces db sid pos old new_).err = none := by
  have hmain : updateSegmentPieces db sid pos old new_ =
      finishUpdate (runUpdate db sid pos old new_) new_
        ((runUpdate db sid pos old new_).find? (segKey sid pos)) := by
    unfold updateSegmentPieces
    rw [if_neg hs, if_neg hn]
  have hfind' : (runUpdate db sid pos old new_).find? (segKey sid pos) =
      some (applyCas old new_ seg) := by
    rw [find?_runUpdate, hfind, Option.map_some']
  rw [hmain, hfind', finishUpdate]
  unfold applyCas
  by_cases hco : piecesEqual seg.pieces old = true
  · rw [if_pos hco]
    rw [if_pos (piecesEqual_of_perm (List.Perm.refl new_))]
  · rw [if_neg hco]
    rw [if_pos (piecesEqual_of_perm hnew)]

/-- Witness for C9: the stored pieces `[pA, pB]` already equal the requested
`newPieces = [pB, pA]` up to order, while `oldPieces = [pC]` does not match,
yet the call succeeds. -/
theorem updateSegmentPieces_retry_succeeds_witness :
    (updateSegmentPieces [⟨1, 0, [pA, pB]⟩] 1 0 [pC] [pB, pA]).err = none :=
  updateSegmentPieces_retry_succeeds [⟨1, 0, [pA, pB]⟩] 1 0 [pC] [pB, pA]
    ⟨1, 0, [pA, pB]⟩ (by decide) (by decide) (by decide)
    (List.isPerm_iff.mp (by decide))

theorem bytesLt_append_cons_lt (u : List Nat) (x y : Nat) (s t : List Nat)
    (h : x < y) : bytesLt (u ++ x :: s) (u ++ y :: t) = true := by
  induction u with
  | nil =>
    show bytesLt (x :: s) (y :: t) = true
    simp only [bytesLt]
    rw [if_pos h]
  | cons a u ih =>
    show bytesLt (a :: (u ++ x :: s)) (a :: (u ++ y :: t)) = true
    simp only [bytesLt]
    rw [if_neg (lt_irrefl a), if_neg (lt_irrefl a)]
    exact ih

theorem prefixIncrementRev_some (l : List Nat) (Q : List Nat)
    (h : prefixIncrementRev l = some Q) :
    ∃ k b rest, l = List.replicate k 255 ++ b :: rest ∧ b ≠ 255 ∧
      Q = ((b + 1) :: rest).reverse := by
  induction l generalizing Q with
  | nil => exact absurd h (by simp [prefixIncrementRev])
  | cons b rest ih =>
    by_cases hb : b = 255
    · rw [prefixIncrementRev, if_pos hb] at h
      obtain ⟨k, b', rest', hl, hb', hQ⟩ := ih Q h
      refine ⟨k + 1, b', rest', ?_, hb', hQ⟩
      rw [List.replicate_succ, hb, List.cons_append, hl]
    · rw [prefixIncrementRev, if_neg hb] at h
      refine ⟨0, b, rest, by simp, hb, ?_⟩
      exact (Option.some.injEq _ _ ▸ h).symm

theorem prefixIncrementRev_none_iff (l : List Nat) :
    prefixIncrementRev l = none ↔ ∀ b ∈ l, b = 255 := by
  induction l with
  | nil => simp [prefixIncrementRev]
  | cons b rest ih =>
    by_cases hb : b = 255
    · rw [prefixIncrementRev, if_pos hb, ih]
      constructor
      · intro h c hc
        rcases List.mem_cons.mp hc with rfl | hc
        · exact hb
        · exact h c hc
      · intro h c hc
        exact h c (List.mem_cons_of_mem b hc)
    · rw [prefixIncrementRev, if_neg hb]
      constructor
      · intro h
        exact absurd h (by simp)
      · intro h
        exact absurd (h b (List.mem_cons_self b rest)) hb

/-- Claim C4 — whenever `prefixIncrement P` yields a result `Q`, `Q` is
lexicographically strictly greater than `P` and every byte string having `P`
as a prefix is strictly below `Q`; there is no result exactly when `P` is
empty or consists only of `0xff` bytes; and the documented concrete examples
hold. -/
theorem prefixIncrement_correct :
    (∀ P Q, prefixIncrement P = some Q →
      bytesLt P Q = true ∧ ∀ S, P <+: S → bytesLt S Q = true) ∧
    (∀ P, prefixIncrement P = none ↔ P = [] ∨ ∀ b ∈ P, b = 255) ∧
    prefixIncrement [97, 98, 99] = some [97, 98, 100] ∧
    prefixIncrement [97, 98, 255, 255] = some [97, 99] ∧
    prefixIncrement [0] = some [1] := by
  refine ⟨?_, ?_, by decide, by decide, by decide⟩
  · intro P Q h
    obtain ⟨k, b, rest, hl, hb, hQ⟩ := prefixIncrementRev_some P.reverse Q h
    have hP : P = rest.reverse ++ b :: List.replicate k 255 := by
      have h2 := congrArg List.reverse hl
      rw [List.reverse_reverse, List.reverse_append, List.reverse_replicate,
        List.reverse_cons, List.append_assoc, List.singleton_append] at h2
      exact h2
    have hQ' : Q = rest.reverse ++ (b + 1) :: [] := by
      rw [hQ, List.reverse_cons]
    constructor
    · rw [hP, hQ']
      exact bytesLt_append_cons_lt _ b (b + 1) _ _ (Nat.lt_succ_self b)
    · intro S hS
      obtain ⟨w, hw⟩ := hS
      have hS' : S = rest.reverse ++ b :: (List.replicate k 255 ++ w) := by
        rw [← hw, hP, List.append_assoc, List.cons_append]
      rw [hS', hQ']
      exact bytesLt_append_cons_lt _ b (b + 1) _ _ (Nat.lt_succ_self b)
  · intro P
    rw [prefixIncrement, prefixIncrementRev_none_iff]
    constructor
    · intro h
      right
      intro b hb
      exact h b (List.mem_reverse.mpr hb)
    · rintro (rfl | h)
      · intro b hb
        simp at hb
      · intro b hb
        exact h b (List.mem_reverse.mp hb)

/-- Witness for C4: the incremented value of `"ab\xff\xff"` bounds both the
original and a longer string with that prefix, and the all-`0xff` iff holds at
a concrete input. -/
theorem prefixIncrement_correct_witness :
    bytesLt [97, 98, 255, 255] [97, 99] = true ∧
    bytesLt [97, 98, 255, 255, 7] [97, 99] = true ∧
    (prefixIncrement [255, 255] = none ↔
      ([255, 255] : List Nat) = [] ∨ ∀ b ∈ ([255, 255] : List Nat), b = 255) := by
  have h := prefixIncrement_correct
  refine ⟨(h.1 [97, 98, 255, 255] [97, 99] (by decide)).1,
    (h.1 [97, 98, 255, 255] [97, 99] (by decide)).2 [97, 98, 255, 255, 7]
      ⟨[7], rfl⟩,
    h.2.1 [255, 255]⟩

theorem filter_eq_self_of_all {α : Type} (l : List α) (p : α → Bool)
    (h : ∀ a ∈ l, p a = true) : l.filter p = l :=
  List.filter_eq_self.mpr h

/-- Claim C3 — for three tallies of one bucket at t0 < t1 < t2 inside the
window, `GetProjectTotal` charges b0 byte-hours per hour until t1 and b1 until
t2; the newest tally (t2, with count b2) contributes nothing, and object-hours
behave the same way. -/
theorem getProjectTotal_three_tallies
    (p : Nat) (bucket : List Nat) (since before t0 t1 t2 : ℚ)
    (b0 b1 b2 c0 c1 c2 : Int)
    (h0 : timeTruncateDown since ≤ t0) (h01 : t0 < t1) (h12 : t1 < t2)
    (h2 : t2 ≤ before) :
    getProjectTotal
      [⟨p, bucket, t0, b0, 0, 0, 0, 0, 0, c0, 0⟩,
       ⟨p, bucket, t1, b1, 0, 0, 0, 0, 0, c1, 0⟩,
       ⟨p, bucket, t2, b2, 0, 0, 0, 0, 0, c2, 0⟩] [] p since before =
      { storage := (b0 : ℚ) * (t1 - t0) + (b1 : ℚ) * (t2 - t1)
        objectCount := (c0 : ℚ) * (t1 - t0) + (c1 : ℚ) * (t2 - t1)
        egress := 0
        since := timeTruncateDown since
        before := before } := by
  set s' := timeTruncateDown since with hs'
  set r0 : TallyRow := ⟨p, bucket, t0, b0, 0, 0, 0, 0, 0, c0, 0⟩ with hr0
  set r1 : TallyRow := ⟨p, bucket, t1, b1, 0, 0, 0, 0, 0, c1, 0⟩ with hr1
  set r2 : TallyRow := ⟨p, bucket, t2, b2, 0, 0, 0, 0, 0, c2, 0⟩ with hr2
  have hst1 : s' ≤ t1 := le_trans h0 (le_of_lt h01)
  have hst2 : s' ≤ t2 := le_trans hst1 (le_of_lt h12)
  have htb0 : t0 ≤ before := le_trans (le_of_lt h01) (le_trans (le_of_lt h12) h2)
  have htb1 : t1 ≤ before := le_trans (le_of_lt h12) h2
  have hw0 : tallyInWindow p s' before r0 = true := by
    simp only [tallyInWindow, hr0, Bool.and_eq_true, beq_iff_eq,
      decide_eq_true_eq]
    exact ⟨⟨trivial, h0⟩, htb0⟩
  have hw1 : tallyInWindow p s' before r1 = true := by
    simp only [tallyInWindow, hr1, Bool.and_eq_true, beq_iff_eq,
      decide_eq_true_eq]
    exact ⟨⟨trivial, hst1⟩, htb1⟩
  have hw2 : tallyInWindow p s' before r2 = true := by
    simp only [tallyInWindow, hr2, Bool.and_eq_true, beq_iff_eq,
      decide_eq_true_eq]
    exact ⟨⟨trivial, hst2⟩, h2⟩
  have hbuckets : getBucketsSinceAndBefore [r0, r1, r2] p s' before =
      [bucket] := by
    rw [getBucketsSinceAndBefore,
      filter_eq_self_of_all _ _ (by
        intro a ha
        simp only [List.mem_cons, List.not_mem_nil, or_false] at ha
        rcases ha with rfl | rfl | rfl
        · exact hw0
        · exact hw1
        · exact hw2)]
    simp only [List.map_cons, List.map_nil, hr0, hr1, hr2]
    rw [List.dedup_cons_of_mem (by simp), List.dedup_cons_of_mem (by simp),
      List.dedup_cons_of_not_mem (by simp), List.dedup_nil]
  have hrows : tallyRowsFor [r0, r1, r2] p bucket s' before = [r2, r1, r0] := by
    rw [tallyRowsFor,
      filter_eq_self_of_all _ _ (by
        intro a ha
        simp only [List.mem_cons, List.not_mem_nil, or_false] at ha
        rcases ha with rfl | rfl | rfl
        · rw [Bool.and_eq_true]
          exact ⟨hw0, by simp [hr0]⟩
        · rw [Bool.and_eq_true]
          exact ⟨hw1, by simp [hr1]⟩
        · rw [Bool.and_eq_true]
          exact ⟨hw2, by simp [hr2]⟩)]
    have hins2 : insertByStartDesc r2 [] = [r2] := rfl
    have hins1 : insertByStartDesc r1 [r2] = [r2, r1] := by
      rw [insertByStartDesc, if_neg (by rw [hr1, hr2]; exact not_lt.mpr (le_of_lt h12))]
      rfl
    have hins0 : insertByStartDesc r0 [r2, r1] = [r2, r1, r0] := by
      rw [insertByStartDesc, if_neg (by
        rw [hr0, hr2]
        exact not_lt.mpr (le_of_lt (lt_trans h01 h12)))]
      rw [insertByStartDesc, if_neg (by rw [hr0, hr1]; exact not_lt.mpr (le_of_lt h01))]
      rfl
    rw [sortByStartDesc, List.foldr_cons, List.foldr_cons, List.foldr_cons,
      List.foldr_nil, hins2, hins1, hins0]
  have hbytes : ∀ b : Int, (if b = 0 then (0 : Int) + 0 else b) = b := by
    intro b
    by_cases hb : b = 0 <;> simp [hb]
  rw [getProjectTotal]
  simp only [hbuckets, List.map_cons, List.map_nil, List.sum_cons,
    List.sum_nil, hrows]
  rw [ProjectUsage.mk.injEq]
  refine ⟨?_, ?_, rfl, rfl, rfl⟩
  · simp only [scanTallyRow, hr0, hr1, hr2, weightStorage, hbytes]
    ring
  · simp only [scanTallyRow, hr0, hr1, hr2, weightObjects]
    ring

/-- Witness for C3: concrete three-tally window with t0 = 0, t1 = 1, t2 = 3,
b0 = 5, b1 = 7 gives 5*1 + 7*2 = 19 byte-hours. -/
theorem getProjectTotal_three_tallies_witness :
    getProjectTotal
      [⟨1, [3], 0, 5, 0, 0, 0, 0, 0, 11, 0⟩,
       ⟨1, [3], 1, 7, 0, 0, 0, 0, 0, 13, 0⟩,
       ⟨1, [3], 3, 9, 0, 0, 0, 0, 0, 17, 0⟩] [] 1 0 3 =
      { storage := (5 : ℚ) * (1 - 0) + (7 : ℚ) * (3 - 1)
        objectCount := (11 : ℚ) * (1 - 0) + (13 : ℚ) * (3 - 1)
        egress := 0
        since := timeTruncateDown 0
        before := 3 } := by
  exact getProjectTotal_three_tallies 1 [3] 0 3 0 1 3 5 7 9 11 13 17
    (by norm_num [timeTruncateDown]) (by norm_num) (by norm_num) (by norm_num)

/-- Claim C7 (counterexample) — the claim says a tally or rollup whose
interval start equals `before` is excluded. With `before = 2`, a tally at
interval start 2 is enumerated as a bucket and a GET rollup at interval
start 2 contributes its settled + inline = 5 to the egress: the SQL bounds
are `interval_start <= ?`, inclusive. -/
theorem getProjectTotal_window_upper_counterexample :
    getBucketsSinceAndBefore [⟨1, [5], 2, 10, 0, 0, 0, 0, 0, 1, 0⟩] 1 0 2 =
      [[5]] ∧
    (getProjectTotal [⟨1, [5], 2, 10, 0, 0, 0, 0, 0, 1, 0⟩]
      [⟨1, [5], 2, 3600, 2, 3, 0, 2⟩] 1 0 2).egress = 5 := by
  decide

/-- Claim C7 (amended) — the aggregation window is inclusive at both ends:
every tally row with `since' ≤ interval_start ≤ before` (boundary included)
is enumerated by `getBucketsSinceAndBefore`, and every GET rollup row in the
closed window contributes its settled + inline bytes to the egress of
`GetProjectTotal`. -/
theorem getProjectTotal_window_inclusive
    (tallies : List TallyRow) (rollups : List RollupRow) (p : Nat)
    (since before : ℚ) (r : TallyRow) (q : RollupRow)
    (hrmem : r ∈ tallies) (hrp : r.projectID = p)
    (hr1 : timeTruncateDown since ≤ r.intervalStart)
    (hr2 : r.intervalStart ≤ before)
    (hqp : q.projectID = p) (hqa : q.action = actionGet)
    (hq1 : timeTruncateDown since ≤ q.intervalStart)
    (hq2 : q.intervalStart ≤ before) :
    r.bucketName ∈
      getBucketsSinceAndBefore tallies p (timeTruncateDown since) before ∧
    getTotalEgress (q :: rollups) p (timeTruncateDown since) before =
      (q.settled + q.inline) +
        getTotalEgress rollups p (timeTruncateDown since) before ∧
    (getProjectTotal tallies (q :: rollups) p since before).egress =
      (q.settled + q.inline) +
        (getProjectTotal tallies rollups p since before).egress := by
  have hrw : tallyInWindow p (timeTruncateDown since) before r = true := by
    simp only [tallyInWindow, Bool.and_eq_true, beq_iff_eq, decide_eq_true_eq]
    exact ⟨⟨hrp, hr1⟩, hr2⟩
  have hqw : (q.projectID == p &&
      decide (timeTruncateDown since ≤ q.intervalStart) &&
      decide (q.intervalStart ≤ before) && q.action == actionGet) = true := by
    simp only [Bool.and_eq_true, beq_iff_eq, decide_eq_true_eq]
    exact ⟨⟨⟨hqp, hq1⟩, hq2⟩, hqa⟩
  have hegr : getTotalEgress (q :: rollups) p (timeTruncateDown since) before =
      (q.settled + q.inline) +
        getTotalEgress rollups p (timeTruncateDown since) before := by
    simp only [getTotalEgress, List.filter_cons, hqw, if_true, List.map_cons,
      List.sum_cons]
  refine ⟨?_, hegr, hegr⟩
  rw [getBucketsSinceAndBefore, List.mem_dedup]
  exact List.mem_map_of_mem _ (List.mem_filter.mpr ⟨hrmem, hrw⟩)

/-- Witness for C7 (amended): a tally and a GET rollup exactly at
`before = 2` are included. -/
theorem getProjectTotal_window_inclusive_witness :
    ([5] : List Nat) ∈
      getBucketsSinceAndBefore [⟨1, [5], 2, 10, 0, 0, 0, 0, 0, 1, 0⟩] 1
        (timeTruncateDown 0) 2 ∧
    getTotalEgress [⟨1, [5], 2, 3600, 2, 3, 0, 2⟩] 1 (timeTruncateDown 0) 2 =
      ((2 : Int) + 3) + getTotalEgress [] 1 (timeTruncateDown 0) 2 ∧
    (getProjectTotal [⟨1, [5], 2, 10, 0, 0, 0, 0, 0, 1, 0⟩]
        [⟨1, [5], 2, 3600, 2, 3, 0, 2⟩] 1 0 2).egress =
      ((2 : Int) + 3) +
        (getProjectTotal [⟨1, [5], 2, 10, 0, 0, 0, 0, 0, 1, 0⟩] [] 1 0 2).egress :=
  getProjectTotal_window_inclusive
    [⟨1, [5], 2, 10, 0, 0, 0, 0, 0, 1, 0⟩] [] 1 0 2
    ⟨1, [5], 2, 10, 0, 0, 0, 0, 0, 1, 0⟩ ⟨1, [5], 2, 3600, 2, 3, 0, 2⟩
    (by decide) (by decide) (by decide) (by decide) (by decide) (by decide)
    (by decide) (by decide)

/-- Claim C8 (counterexample) — the claim says every reader uses a nonzero
canonical value unchanged. In the `GetBucketUsageRollups` loop the fallback
fires on `TotalBytes > 0` being false, so a row with canonical total bytes -1
(nonzero) and legacy inline 3, remote 4 is charged from the legacy sum 7, not
from the canonical -1; the segment accumulation behaves the same way. -/
theorem legacy_fallback_counterexample :
    ((-1 : Int) ≠ 0) ∧
    rollupStoredData
      [⟨1, [1], 1, 5, 0, 0, 0, 0, 0, 0, 0⟩,
       ⟨1, [1], 0, -1, 3, 4, -1, 3, 4, 0, 0⟩] = gb 7 ∧
    gb 7 ≠ gb (-1) ∧
    rollupTotalSegments
      [⟨1, [1], 1, 5, 0, 0, 0, 0, 0, 0, 0⟩,
       ⟨1, [1], 0, -1, 3, 4, -1, 3, 4, 0, 0⟩] = 7 ∧
    (7 : ℚ) ≠ -1 := by
  refine ⟨by decide, ?_, ?_, ?_, by norm_num⟩
  · simp only [rollupStoredData]
    norm_num [gb]
  · norm_num [gb]
  · simp only [rollupTotalSegments]
    norm_num

/-- Claim C8 (amended) — `GetTallies`, `GetProjectTotal` and
`GetBucketTotals` resolve the effective total bytes (and, where read, total
segments) from the legacy inline+remote columns exactly when the canonical
column is zero and use a nonzero canonical value unchanged; the
`GetBucketUsageRollups` loop instead applies the legacy fallback whenever the
canonical value is not positive; on nonnegative canonical values the two
rules agree. -/
theorem legacy_fallback_resolution :
    (∀ r : TallyRow,
      (r.totalBytes = 0 →
        (getTalliesRow r).totalBytes = r.inline + r.remote) ∧
      (r.totalBytes ≠ 0 → (getTalliesRow r).totalBytes = r.totalBytes) ∧
      (r.totalSegments = 0 →
        (getTalliesRow r).totalSegments = r.inlineSegments + r.remoteSegments) ∧
      (r.totalSegments ≠ 0 →
        (getTalliesRow r).totalSegments = r.totalSegments) ∧
      (r.totalBytes = 0 →
        (scanTallyRow r).totalBytes = r.inline + r.remote) ∧
      (r.totalBytes ≠ 0 → (scanTallyRow r).totalBytes = r.totalBytes)) ∧
    (∀ (a b : TallyRow) (rest : List TallyRow),
      (0 < b.totalBytes →
        rollupStoredData (a :: b :: rest) =
          gb b.totalBytes * (a.intervalStart - b.intervalStart) +
            rollupStoredData (b :: rest)) ∧
      (¬ 0 < b.totalBytes →
        rollupStoredData (a :: b :: rest) =
          gb (b.remote + b.inline) * (a.intervalStart - b.intervalStart) +
            rollupStoredData (b :: rest)) ∧
      (0 < b.totalSegments →
        rollupTotalSegments (a :: b :: rest) =
          (b.totalSegments : ℚ) * (a.intervalStart - b.intervalStart) +
            rollupTotalSegments (b :: rest)) ∧
      (¬ 0 < b.totalSegments →
        rollupTotalSegments (a :: b :: rest) =
          ((b.remoteSegments + b.inlineSegments : Int) : ℚ) *
              (a.intervalStart - b.intervalStart) +
            rollupTotalSegments (b :: rest))) ∧
    (∀ b inl rem : Int, 0 ≤ b →
      (if 0 < b then gb b else gb (rem + inl)) =
        gb (if b = 0 then inl + rem else b)) ∧
    (∀ tallies p name since before r,
      (sortByStartDesc (tallies.filter fun x =>
        tallyInWindow p since before x && x.bucketName == name)).head? =
          some r →
      (bucketTotalsTally tallies p name since before).1 =
        if r.totalBytes = 0 then r.inline + r.remote else r.totalBytes) := by
  refine ⟨?_, ?_, ?_, ?_⟩
  · intro r
    refine ⟨fun h => ?_, fun h => ?_, fun h => ?_, fun h => ?_,
      fun h => ?_, fun h => ?_⟩ <;>
      simp [getTalliesRow, scanTallyRow, h]
  · intro a b rest
    refine ⟨fun h => ?_, fun h => ?_, fun h => ?_, fun h => ?_⟩
    · simp only [rollupStoredData]
      rw [if_pos h]
    · simp only [rollupStoredData]
      rw [if_neg h]
    · simp only [rollupTotalSegments]
      rw [if_pos h]
    · simp only [rollupTotalSegments]
      rw [if_neg h]
  · intro b inl rem hb
    by_cases h0 : b = 0
    · subst h0
      rw [if_neg (lt_irrefl 0), if_pos rfl, Int.add_comm]
    · rw [if_pos (lt_of_le_of_ne hb (Ne.symm h0)), if_neg h0]
  · intro tallies p name since before r hhead
    simp only [bucketTotalsTally, hhead]

/-- Witness for C8 (amended): the fallback rules evaluated on concrete rows
with zero, positive and most-recent canonical values. -/
theorem legacy_fallback_resolution_witness :
    (getTalliesRow ⟨1, [1], 0, 0, 3, 4, 0, 5, 6, 7, 8⟩).totalBytes = 3 + 4 ∧
    (getTalliesRow ⟨1, [1], 0, 9, 3, 4, 2, 5, 6, 7, 8⟩).totalBytes = 9 ∧
    rollupStoredData
      [⟨1, [1], 1, 5, 0, 0, 0, 0, 0, 0, 0⟩,
       ⟨1, [1], 0, -1, 3, 4, -1, 3, 4, 0, 0⟩] =
      gb (4 + 3) * (1 - 0) +
        rollupStoredData [⟨1, [1], 0, -1, 3, 4, -1, 3, 4, 0, 0⟩] ∧
    ((if 0 < (5 : Int) then gb 5 else gb (0 + 0)) =
      gb (if (5 : Int) = 0 then 0 + 0 else 5)) ∧
    (bucketTotalsTally [⟨1, [1], 0, 0, 3, 4, 0, 5, 6, 7, 8⟩] 1 [1] 0 2).1 =
      3 + 4 := by
  have h := legacy_fallback_resolution
  refine ⟨(h.1 ⟨1, [1], 0, 0, 3, 4, 0, 5, 6, 7, 8⟩).1 rfl,
    (h.1 ⟨1, [1], 0, 9, 3, 4, 2, 5, 6, 7, 8⟩).2.1 (by decide),
    (h.2.1 ⟨1, [1], 1, 5, 0, 0, 0, 0, 0, 0, 0⟩
      ⟨1, [1], 0, -1, 3, 4, -1, 3, 4, 0, 0⟩ []).2.1 (by decide),
    h.2.2.1 5 0 0 (by decide),
    h.2.2.2 [⟨1, [1], 0, 0, 3, 4, 0, 5, 6, 7, 8⟩] 1 [1] 0 2
      ⟨1, [1], 0, 0, 3, 4, 0, 5, 6, 7, 8⟩ (by decide)⟩

theorem cap_eq_min (l : Nat) : (if l > 50 then 50 else l) = min l 50 := by
  by_cases h : l > 50
  · rw [if_pos h]
    omega
  · rw [if_neg h]
    omega

theorem le_mul_of_ceilDiv_le (t l k : Nat) (hl : 1 ≤ l)
    (h : ceilDiv t l ≤ k) : t ≤ k * l := by
  have hdm := Nat.div_add_mod t l
  by_cases hr : t % l = 0
  · rw [ceilDiv, hr, if_pos rfl, Nat.add_zero] at h
    have h2 : l * (t / l) ≤ l * k := Nat.mul_le_mul (le_refl l) h
    rw [Nat.mul_comm l k] at h2
    omega
  · rw [ceilDiv, if_neg hr] at h
    have hmod : t % l < l := Nat.mod_lt t (by omega)
    have h2 : l * (t / l + 1) ≤ l * k := Nat.mul_le_mul (le_refl l) (by omega)
    have h3 : l * (t / l + 1) = l * (t / l) + l := by ring
    rw [Nat.mul_comm l k] at h2
    omega

theorem ceilDiv_zero_left (l : Nat) : ceilDiv 0 l = 0 := by
  rw [ceilDiv, Nat.zero_div, Nat.zero_mod, if_pos rfl]

/-- Claim C6 (counterexample) — the claim says any page strictly beyond
`ceil(total/limit)` fails with an out-of-range error. With no matching
buckets (total 0), page 2 is strictly beyond `ceil(0/10) = 0`, yet the call
succeeds, returning the early empty page. -/
theorem getBucketTotals_page_beyond_counterexample :
    matchingBucketCount [] 1 [] = 0 ∧
    getBucketTotals [] [] [] 1 ⟨[], 10, 2⟩ 0 1 =
      .ok { search := [], limit := 10, offset := 10, pageCount := 0,
            currentPage := 0, totalCount := 0, bucketUsages := [] } := by
  decide

/-- Claim C6 (amended) — page 0 always fails; when no bucket matches, any
positive page succeeds with the empty page; when at least one bucket matches
and the requested (capped, positive) limit is `L`, a page strictly beyond
`ceil(total/L)` fails with the out-of-range error; every successful page
carries the limit capped at 50 and a PageCount equal to the ceiling of its
total count divided by that capped limit. -/
theorem getBucketTotals_pagination
    (metainfos : List BucketMetainfo) (tallies : List TallyRow)
    (rollups : List RollupRow) (p : Nat) (cursor : BucketUsageCursor)
    (since before : ℚ) :
    (cursor.page = 0 →
      getBucketTotals metainfos tallies rollups p cursor since before =
        .error .pageZero) ∧
    (cursor.page ≠ 0 → matchingBucketCount metainfos p cursor.search = 0 →
      getBucketTotals metainfos tallies rollups p cursor since before =
        .ok { search := cursor.search
              limit := if cursor.limit > 50 then 50 else cursor.limit
              offset := (cursor.page - 1) *
                (if cursor.limit > 50 then 50 else cursor.limit)
              pageCount := 0, currentPage := 0, totalCount := 0
              bucketUsages := [] }) ∧
    (1 ≤ cursor.limit → cursor.page ≠ 0 →
      1 ≤ matchingBucketCount metainfos p cursor.search →
      cursor.page > ceilDiv (matchingBucketCount metainfos p cursor.search)
        (if cursor.limit > 50 then 50 else cursor.limit) →
      getBucketTotals metainfos tallies rollups p cursor since before =
        .error .outOfRange) ∧
    (∀ page,
      getBucketTotals metainfos tallies rollups p cursor since before =
        .ok page →
      page.limit = min cursor.limit 50 ∧
      page.pageCount = ceilDiv page.totalCount page.limit) := by
  refine ⟨?_, ?_, ?_, ?_⟩
  · intro h0
    rw [getBucketTotals, if_pos h0]
  · intro h0 htot
    rw [getBucketTotals, if_neg h0]
    simp only [htot, eq_self_iff_true, if_true]
  · intro hlim h0 htot hpage
    have hl : 1 ≤ (if cursor.limit > 50 then 50 else cursor.limit) := by
      by_cases h : cursor.limit > 50
      · rw [if_pos h]
        omega
      · rw [if_neg h]
        omega
    have hle : matchingBucketCount metainfos p cursor.search ≤
        (cursor.page - 1) * (if cursor.limit > 50 then 50 else cursor.limit) :=
      le_mul_of_ceilDiv_le _ _ _ hl (by omega)
    rw [getBucketTotals, if_neg h0]
    rw [if_neg (by omega : ¬ matchingBucketCount metainfos p cursor.search = 0)]
    rw [if_pos (by omega)]
  · intro page hok
    rw [getBucketTotals] at hok
    by_cases h0 : cursor.page = 0
    · rw [if_pos h0] at hok
      exact absurd hok (by simp)
    · rw [if_neg h0] at hok
      by_cases htot : matchingBucketCount metainfos p cursor.search = 0
      · simp only [htot, eq_self_iff_true, if_true, Except.ok.injEq] at hok
        rw [← hok, ← cap_eq_min]
        exact ⟨rfl, (ceilDiv_zero_left _).symm⟩
      · rw [if_neg htot] at hok
        by_cases hoff : (cursor.page - 1) *
            (if cursor.limit > 50 then 50 else cursor.limit) >
            matchingBucketCount metainfos p cursor.search - 1
        · rw [if_pos hoff] at hok
          exact absurd hok (by simp)
        · rw [if_neg hoff] at hok
          by_cases hl0 : (if cursor.limit > 50 then 50 else cursor.limit) = 0
          · rw [if_pos hl0] at hok
            exact absurd hok (by simp)
          · rw [if_neg hl0, Except.ok.injEq] at hok
            rw [← hok, ← cap_eq_min]
            exact ⟨rfl, rfl⟩

/-- Witness for C6 (amended): page 0 rejected; page 3 of a single-bucket
result with limit 10 is out of range; a successful empty page carries
`PageCount = ceil(0/10) = 0` and the capped limit. -/
theorem getBucketTotals_pagination_witness :
    getBucketTotals [⟨1, [97]⟩] [] [] 1 ⟨[], 10, 0⟩ 0 1 =
      .error .pageZero ∧
    getBucketTotals [⟨1, [97]⟩] [] [] 1 ⟨[], 10, 3⟩ 0 1 =
      .error .outOfRange ∧
    ({ search := [], limit := 10, offset := 10, pageCount := 0,
       currentPage := 0, totalCount := 0,
       bucketUsages := [] } : BucketUsagePage).limit = min 10 50 ∧
    ({ search := [], limit := 10, offset := 10, pageCount := 0,
       currentPage := 0, totalCount := 0,
       bucketUsages := [] } : BucketUsagePage).pageCount = ceilDiv 0 10 := by
  refine ⟨(getBucketTotals_pagination [⟨1, [97]⟩] [] [] 1 ⟨[], 10, 0⟩ 0 1).1 rfl,
    (getBucketTotals_pagination [⟨1, [97]⟩] [] [] 1 ⟨[], 10, 3⟩ 0 1).2.2.1
      (by decide) (by decide) (by decide) (by decide), ?_⟩
  have h := (getBucketTotals_pagination [] [] [] 1 ⟨[], 10, 2⟩ 0 1).2.2.2
    { search := [], limit := 10, offset := 10, pageCount := 0,
      currentPage := 0, totalCount := 0, bucketUsages := [] } (by decide)
  exact h

/-- Claim C10 — with a zero limit, a positive page and at least one matching
bucket, `GetBucketTotals` reaches the unguarded `TotalCount / uint64(limit)`
with a zero divisor: the cap never raises a zero limit, and the offset
`(page-1)*0 = 0` passes the range check, so the operation hits the division
by zero (a Go runtime panic). -/
theorem getBucketTotals_zero_limit_divByZero
    (metainfos : List BucketMetainfo) (tallies : List TallyRow)
    (rollups : List RollupRow) (p : Nat) (cursor : BucketUsageCursor)
    (since before : ℚ)
    (hl : cursor.limit = 0) (hp : 1 ≤ cursor.page)
    (ht : 1 ≤ matchingBucketCount metainfos p cursor.search) :
    getBucketTotals metainfos tallies rollups p cursor since before =
      .error .divByZero := by
  rw [getBucketTotals, if_neg (by omega)]
  rw [if_neg (by omega : ¬ matchingBucketCount metainfos p cursor.search = 0)]
  have hcap : (if cursor.limit > 50 then 50 else cursor.limit) = 0 := by
    rw [hl]
    norm_num
  rw [hcap]
  rw [if_neg (by omega : ¬ (cursor.page - 1) * 0 >
    matchingBucketCount metainfos p cursor.search - 1)]
  rw [if_pos rfl]

/-- Witness for C10: one matching bucket, limit 0, page 1 hits the division
by zero. -/
theorem getBucketTotals_zero_limit_divByZero_witness :
    getBucketTotals [⟨1, [97]⟩] [] [] 1 ⟨[], 0, 1⟩ 0 1 =
      .error .divByZero :=
  getBucketTotals_zero_limit_divByZero [⟨1, [97]⟩] [] [] 1 ⟨[], 0, 1⟩ 0 1
    (by decide) (by decide) (by decide)

theorem takeMatching_spec (p : RollupRow → Bool) (l : List RollupRow) :
    ∀ n, (takeMatching p n l).1 = (l.filter p).take n ∧
      (takeMatching p n l).2.filter p = (l.filter p).drop n ∧
      (takeMatching p n l).1.length + (takeMatching p n l).2.length = l.length ∧
      (takeMatching p n l).2.filter (fun r => !(p r)) =
        l.filter (fun r => !(p r)) := by
  induction l with
  | nil =>
    intro n
    simp [takeMatching]
  | cons r rest ih =>
    intro n
    cases n with
    | zero => simp [takeMatching]
    | succ n =>
      by_cases hpr : p r = true
      · have heq : takeMatching p (n + 1) (r :: rest) =
            (r :: (takeMatching p n rest).1, (takeMatching p n rest).2) := by
          rw [takeMatching, if_pos hpr]
        obtain ⟨ih1, ih2, ih3, ih4⟩ := ih n
        rw [heq]
        refine ⟨?_, ?_, ?_, ?_⟩
        · rw [List.filter_cons_of_pos hpr, List.take_succ_cons, ih1]
        · rw [List.filter_cons_of_pos hpr, List.drop_succ_cons, ih2]
        · simp only [List.length_cons]
          omega
        · rw [ih4, List.filter_cons_of_neg (by simp [hpr])]
      · have heq : takeMatching p (n + 1) (r :: rest) =
            ((takeMatching p (n + 1) rest).1,
              r :: (takeMatching p (n + 1) rest).2) := by
          rw [takeMatching, if_neg hpr]
        obtain ⟨ih1, ih2, ih3, ih4⟩ := ih (n + 1)
        rw [heq]
        refine ⟨?_, ?_, ?_, ?_⟩
        · rw [List.filter_cons_of_neg hpr, ih1]
        · rw [List.filter_cons_of_neg hpr, List.filter_cons_of_neg hpr, ih2]
        · simp only [List.length_cons]
          omega
        · rw [List.filter_cons_of_pos (by simp [hpr]),
            List.filter_cons_of_pos (by simp [hpr]), ih4]

theorem takeMatching_length_le (p : RollupRow → Bool) (n : Nat)
    (l : List RollupRow) : (takeMatching p n l).1.length ≤ n := by
  rw [(takeMatching_spec p l n).1, List.length_take]
  omega

theorem archiveByAction_conserves (action : Nat) (before : ℚ)
    (batchSize : Int) :
    ∀ (fuel : Nat) (budget : Option Nat) (st : ArchState),
      (archiveByAction action before batchSize fuel budget st).state.archive.length =
        st.archive.length +
          (archiveByAction action before batchSize fuel budget st).count ∧
      st.live.length =
        (archiveByAction action before batchSize fuel budget st).state.live.length +
          (archiveByAction action before batchSize fuel budget st).count := by
  intro fuel
  induction fuel with
  | zero =>
    intro budget st
    simp [archiveByAction]
  | succ fuel ih =>
    intro budget st
    by_cases hb : budget = some 0
    · rw [archiveByAction, if_pos hb]
      simp
    · have hlen := (takeMatching_spec (archMatch action before) st.live
        batchSize.toNat).2.2.1
      set mv := takeMatching (archMatch action before) batchSize.toNat st.live
        with hmv
      rw [archiveByAction, if_neg hb]
      by_cases hlt : (mv.1.length : Int) < batchSize
      · rw [if_pos hlt]
        constructor
        · show (st.archive ++ mv.1).length = st.archive.length + mv.1.length
          simp [List.length_append]
        · show st.live.length = mv.2.length + mv.1.length
          omega
      · rw [if_neg hlt]
        obtain ⟨iha, ihl⟩ := ih (budget.map (· - 1))
          ⟨mv.2, st.archive ++ mv.1⟩
        set r := archiveByAction action before batchSize fuel
          (budget.map (· - 1)) ⟨mv.2, st.archive ++ mv.1⟩ with hr
        constructor
        · show r.state.archive.length = st.archive.length +
            (mv.1.length + r.count)
          simp only at iha
          rw [iha]
          simp only [List.length_append]
          omega
        · show st.live.length = r.state.live.length + (mv.1.length + r.count)
          simp only at ihl
          omega

theorem archiveByAction_complete (action : Nat) (before : ℚ)
    (batchSize : Int) (hbs : 1 ≤ batchSize) :
    ∀ (fuel : Nat) (st : ArchState), st.live.length < fuel →
      (archiveByAction action before batchSize fuel none st).failed = false ∧
      (archiveByAction action before batchSize fuel none st).count =
        (st.live.filter (archMatch action before)).length ∧
      (archiveByAction action before batchSize fuel none st).state.live =
        st.live.filter (fun r => !(archMatch action before r)) ∧
      (archiveByAction action before batchSize fuel none st).state.archive =
        st.archive ++ st.live.filter (archMatch action before) ∧
      (archiveByAction action before batchSize fuel none st).rounds =
        (st.live.filter (archMatch action before)).length / batchSize.toNat
          + 1 := by
  intro fuel
  induction fuel with
  | zero =>
    intro st h
    omega
  | succ fuel ih =>
    intro st hfuel
    have hnone : (none : Option Nat) ≠ some 0 := by simp
    have hn : 1 ≤ batchSize.toNat := by omega
    obtain ⟨hs1, hs2, hs3, hs4⟩ := takeMatching_spec (archMatch action before)
      st.live batchSize.toNat
    set mv := takeMatching (archMatch action before) batchSize.toNat st.live
      with hmv
    set F := st.live.filter (archMatch action before) with hF
    have hmlen : mv.1.length = min batchSize.toNat F.length := by
      rw [hs1, List.length_take]
    rw [archiveByAction, if_neg hnone]
    by_cases hlt : (mv.1.length : Int) < batchSize
    · have hflt : F.length < batchSize.toNat := by omega
      have htake : F.take batchSize.toNat = F :=
        List.take_of_length_le (by omega)
      have hdrop : F.drop batchSize.toNat = [] :=
        List.drop_eq_nil_of_le (by omega)
      have hrem : mv.2 = st.live.filter
          (fun x => !(archMatch action before x)) := by
        rw [← hs4]
        have hnil := hs2.trans hdrop
        have hall := List.filter_eq_nil_iff.mp hnil
        exact (List.filter_eq_self.mpr fun a ha => by
          simp [hall a ha]).symm
      rw [if_pos hlt]
      refine ⟨rfl, ?_, ?_, ?_, ?_⟩
      · show mv.1.length = F.length
        omega
      · show mv.2 = st.live.filter fun x => !(archMatch action before x)
        exact hrem
      · show st.archive ++ mv.1 = st.archive ++ F
        rw [hs1, htake]
      · show 1 = F.length / batchSize.toNat + 1
        rw [Nat.div_eq_of_lt hflt]
    · have hge : batchSize.toNat ≤ F.length := by omega
      have hm1 : mv.1.length = batchSize.toNat := by omega
      have hlive2 : mv.2.length < fuel := by omega
      obtain ⟨ih1, ih2, ih3, ih4, ih5⟩ := ih ⟨mv.2, st.archive ++ mv.1⟩ hlive2
      rw [if_neg hlt]
      set r := archiveByAction action before batchSize fuel none
        ⟨mv.2, st.archive ++ mv.1⟩ with hrr
      simp only at ih1 ih2 ih3 ih4 ih5
      have hlen2 : (mv.2.filter (archMatch action before)).length =
          F.length - batchSize.toNat := by
        rw [hs2, List.length_drop]
      refine ⟨ih1, ?_, ?_, ?_, ?_⟩
      · show mv.1.length + r.count = F.length
        rw [ih2, hlen2, hm1]
        omega
      · show r.state.live = st.live.filter fun x => !(archMatch action before x)
        rw [ih3]
        exact hs4
      · show r.state.archive = st.archive ++ F
        rw [ih4, hs2, hs1, List.append_assoc, List.take_append_drop]
      · show r.rounds + 1 = F.length / batchSize.toNat + 1
        rw [ih5, hlen2, Nat.div_eq_sub_div (by omega) hge]

theorem archiveActionsLoop_conserves (before : ℚ) (batchSize : Int) :
    ∀ (actions : List Nat) (budget : Option Nat) (st : ArchState),
      (archiveActionsLoop before batchSize actions budget st).state.archive.length =
        st.archive.length +
          (archiveActionsLoop before batchSize actions budget st).count ∧
      st.live.length =
        (archiveActionsLoop before batchSize actions budget st).state.live.length +
          (archiveActionsLoop before batchSize actions budget st).count := by
  intro actions
  induction actions with
  | nil =>
    intro budget st
    simp [archiveActionsLoop]
  | cons a rest ih =>
    intro budget st
    obtain ⟨ha1, ha2⟩ := archiveByAction_conserves a before batchSize
      (st.live.length + 1) budget st
    rw [archiveActionsLoop]
    set r := archiveByAction a before batchSize (st.live.length + 1) budget st
      with hr
    by_cases hf : r.failed = true
    · rw [if_pos hf]
      exact ⟨ha1, ha2⟩
    · rw [if_neg hf]
      obtain ⟨ihr1, ihr2⟩ := ih r.budget r.state
      set rr := archiveActionsLoop before batchSize rest r.budget r.state
        with hrr
      constructor
      · show rr.state.archive.length = st.archive.length + (r.count + rr.count)
        omega
      · show st.live.length = rr.state.live.length + (r.count + rr.count)
        omega

/-- Claim C5 — `ArchiveRollupsBefore` is a no-op returning 0 for
`batchSize <= 0`; on the batched (Cockroach) dialect each action is processed
by its own loop, every round moves at most `batchSize` rows, a full run with
no failure moves exactly the matching rows in
`matching/batchSize + 1` rounds (the last, short round ends the loop); and
under any failure pattern the returned count equals the number of rows
actually moved from the live table into the archive (the partial count
accompanies the error). -/
theorem archiveRollupsBefore_correct :
    (∀ (impl : Dialect) (budget : Option Nat) (st : ArchState)
      (before : ℚ) (batchSize : Int), batchSize ≤ 0 →
      archiveRollupsBefore impl budget st before batchSize = ⟨0, false, st⟩) ∧
    (∀ (p : RollupRow → Bool) (n : Nat) (l : List RollupRow),
      (takeMatching p n l).1.length ≤ n) ∧
    (∀ (action : Nat) (before : ℚ) (batchSize : Int) (st : ArchState),
      1 ≤ batchSize →
      (archiveByAction action before batchSize (st.live.length + 1) none
        st).failed = false ∧
      (archiveByAction action before batchSize (st.live.length + 1) none
        st).count = (st.live.filter (archMatch action before)).length ∧
      (archiveByAction action before batchSize (st.live.length + 1) none
        st).state.live =
          st.live.filter (fun r => !(archMatch action before r)) ∧
      (archiveByAction action before batchSize (st.live.length + 1) none
        st).state.archive =
          st.archive ++ st.live.filter (archMatch action before) ∧
      (archiveByAction action before batchSize (st.live.length + 1) none
        st).rounds =
          (st.live.filter (archMatch action before)).length / batchSize.toNat
            + 1) ∧
    (∀ (action : Nat) (before : ℚ) (batchSize : Int) (fuel : Nat)
      (budget : Option Nat) (st : ArchState),
      (archiveByAction action before batchSize fuel budget st).state.archive.length =
        st.archive.length +
          (archiveByAction action before batchSize fuel budget st).count ∧
      st.live.length =
        (archiveByAction action before batchSize fuel budget st).state.live.length +
          (archiveByAction action before batchSize fuel budget st).count) ∧
    (∀ (before : ℚ) (batchSize : Int) (actions : List Nat)
      (budget : Option Nat) (st : ArchState),
      (archiveActionsLoop before batchSize actions budget st).state.archive.length =
        st.archive.length +
          (archiveActionsLoop before batchSize actions budget st).count ∧
      st.live.length =
        (archiveActionsLoop before batchSize actions budget st).state.live.length +
          (archiveActionsLoop before batchSize actions budget st).count) := by
  refine ⟨?_, ?_, ?_, ?_, ?_⟩
  · intro impl budget st before batchSize h
    rw [archiveRollupsBefore.eq_def, if_pos h]
  · exact takeMatching_length_le
  · intro action before batchSize st hbs
    exact archiveByAction_complete action before batchSize hbs
      (st.live.length + 1) st (by omega)
  · intro action before batchSize fuel budget st
    exact archiveByAction_conserves action before batchSize fuel budget st
  · intro before batchSize actions budget st
    exact archiveActionsLoop_conserves before batchSize actions budget st

/-- Witness for C5: a two-row live table with GET rollups, batch size 1:
the full run archives both rows in 2/1 + 1 = 3 rounds; a budget that fails
the second query still reports the one row already archived. -/
theorem archiveRollupsBefore_correct_witness :
    archiveRollupsBefore .cockroach none ⟨[], []⟩ 5 0 = ⟨0, false, ⟨[], []⟩⟩ ∧
    (archiveByAction 2 5 1
      (([⟨1, [1], 1, 3600, 2, 0, 0, 4⟩, ⟨1, [1], 2, 3600, 2, 0, 0, 6⟩] :
        List RollupRow).length + 1) none
      ⟨[⟨1, [1], 1, 3600, 2, 0, 0, 4⟩, ⟨1, [1], 2, 3600, 2, 0, 0, 6⟩],
        []⟩).count = 2 ∧
    (archiveByAction 2 5 1
      (([⟨1, [1], 1, 3600, 2, 0, 0, 4⟩, ⟨1, [1], 2, 3600, 2, 0, 0, 6⟩] :
        List RollupRow).length + 1) none
      ⟨[⟨1, [1], 1, 3600, 2, 0, 0, 4⟩, ⟨1, [1], 2, 3600, 2, 0, 0, 6⟩],
        []⟩).rounds = 3 ∧
    (archiveByAction 2 5 1 3 (some 1)
      ⟨[⟨1, [1], 1, 3600, 2, 0, 0, 4⟩, ⟨1, [1], 2, 3600, 2, 0, 0, 6⟩],
        []⟩).state.archive.length =
      0 + (archiveByAction 2 5 1 3 (some 1)
        ⟨[⟨1, [1], 1, 3600, 2, 0, 0, 4⟩, ⟨1, [1], 2, 3600, 2, 0, 0, 6⟩],
          []⟩).count := by
  have h := archiveRollupsBefore_correct
  refine ⟨h.1 .cockroach none ⟨[], []⟩ 5 0 (by omega), ?_, ?_, ?_⟩
  · exact (h.2.2.1 2 5 1
      ⟨[⟨1, [1], 1, 3600, 2, 0, 0, 4⟩, ⟨1, [1], 2, 3600, 2, 0, 0, 6⟩], []⟩
      (by omega)).2.1.trans (by decide)
  · exact (h.2.2.1 2 5 1
      ⟨[⟨1, [1], 1, 3600, 2, 0, 0, 4⟩, ⟨1, [1], 2, 3600, 2, 0, 0, 6⟩], []⟩
      (by omega)).2.2.2.2.trans (by decide)
  · exact (h.2.2.2.1 2 5 1 3 (some 1)
      ⟨[⟨1, [1], 1, 3600, 2, 0, 0, 4⟩, ⟨1, [1], 2, 3600, 2, 0, 0, 6⟩],
        []⟩).1

end Storj
